import Mathlib

/-!
Verification of the Allure-to-TestIT import script (`allure2testit-cli.ts`).

The script is a sequential data-mapping pipeline.  We give a shallow
embedding of its pure core in Lean:

* JavaScript strings are modelled as Lean `String`; a possibly-`undefined`
  string field is `Option String` (with `none` for `undefined`).
* JavaScript numbers holding epoch-milliseconds are modelled as `Int`
  (optional fields as `Option Int`).
* JavaScript truthiness of a string is `jsTruthyStr` (empty string and
  `undefined` are falsy); of a number it is `jsTruthyNum` (`0` and
  `undefined` are falsy).
* The file system and the remote upload endpoint are modelled by an
  explicit environment (`Env`); HTTP responses by `ApiResponse`; thrown
  exceptions by `Except`.
-/

/-- JavaScript truthiness for an optional string: `undefined` and `""` are falsy. -/
def jsTruthyStr : Option String → Bool
  | none => false
  | some s => s ≠ ""

/-- JavaScript truthiness for an optional number: `undefined` and `0` are falsy. -/
def jsTruthyNum : Option Int → Bool
  | none => false
  | some n => n ≠ 0

/-- Embedding of `allureStatusToOutcome` (lines 192–202): the if/else chain over
`status : string | undefined`. -/
def allureStatusToOutcome : Option String → String
  | none => "Blocked"
  | some status =>
    if status = "passed" then "Passed"
    else if status = "skipped" then "Skipped"
    else "Failed"

/-- Embedding of the duration expression
`start && stop ? (stop - start) : 0` (lines 179 and 224). -/
def computeDuration (start stop : Option Int) : Int :=
  if jsTruthyNum start && jsTruthyNum stop then stop.getD 0 - start.getD 0 else 0

/-- Left-pad the decimal representation of `n` to two digits. -/
def pad2 (n : Nat) : String :=
  if n < 10 then "0" ++ toString n else toString n

/-- Left-pad the decimal representation of `n` to three digits. -/
def pad3 (n : Nat) : String :=
  if n < 10 then "00" ++ toString n
  else if n < 100 then "0" ++ toString n
  else toString n

/-- Left-pad the decimal representation of `n` to four digits. -/
def pad4 (n : Nat) : String :=
  if n < 10 then "000" ++ toString n
  else if n < 100 then "00" ++ toString n
  else if n < 1000 then "0" ++ toString n
  else toString n

/-- Proleptic-Gregorian civil date from a count of days since 1970-01-01
(the standard era-based conversion used by `Date`). Returns (year, month, day). -/
def civilFromDays (z : Int) : Int × Nat × Nat :=
  let z := z + 719468
  let era := z.fdiv 146097
  let doe := (z - era * 146097).toNat
  let yoe := (doe - doe / 1460 + doe / 36524 - doe / 146096) / 365
  let doy := doe - (365 * yoe + yoe / 4 - yoe / 100)
  let mp := (5 * doy + 2) / 153
  let d := doy - (153 * mp + 2) / 5 + 1
  let m := if mp < 10 then mp + 3 else mp - 9
  let y := (yoe : Int) + era * 400 + (if m ≤ 2 then 1 else 0)
  (y, m, d)

/-- Model of JavaScript `new Date(ms).toISOString()` for an epoch-millisecond
value: `YYYY-MM-DDTHH:mm:ss.sssZ`. -/
def dateToISOString (ms : Int) : String :=
  let days := ms.fdiv 86400000
  let msod := (ms.fmod 86400000).toNat
  let ymd := civilFromDays days
  pad4 ymd.1.toNat ++ "-" ++ pad2 ymd.2.1 ++ "-" ++ pad2 ymd.2.2 ++
    "T" ++ pad2 (msod / 3600000) ++ ":" ++ pad2 (msod % 3600000 / 60000) ++
    ":" ++ pad2 (msod % 60000 / 1000) ++ "." ++ pad3 (msod % 1000) ++ "Z"

/-- Embedding of `convertAllureTimestamp` (line 273):
`value ? new Date(value).toISOString() : null`. -/
def convertAllureTimestamp (value : Option Int) : Option String :=
  if jsTruthyNum value then some (dateToISOString (value.getD 0)) else none

/-- JavaScript `u.endsWith('/')`: the last character is `'/'`. -/
def jsEndsWithSlash (s : String) : Bool :=
  s.data.getLast? == some '/'

/-- Embedding of the URL normalization in `parseArgs` (line 83):
`args[1].endsWith('/') ? args[1] : args[1] + '/'`. -/
def normalizeUrl (u : String) : String :=
  if jsEndsWithSlash u then u else u ++ "/"

/-- A `{name, value}` pair as used for Allure labels and step parameters. -/
structure NameValue where
  name : String
  value : String

/-- An Allure attachment descriptor `{source, type}`. -/
structure Attachment where
  source : String
  type : String

/-- A TestIT attachment reference `{id}` returned by the upload endpoint. -/
structure AttachRef where
  id : String

/-- Environment abstracting the file system and the attachment-upload
endpoint: `fileSize p` is `none` when `fs.existsSync p` is false and
`some n` when the file exists with `n` bytes; `uploadId src` is the id the
service returns for uploading attachment `src`. -/
structure Env where
  inputDir : String
  fileSize : String → Option Nat
  uploadId : String → String

/-- Model of `path.join(dir, file)`. -/
def joinPath (dir file : String) : String := dir ++ "/" ++ file

/-- Embedding of `uploadAllureAttachments` (lines 236–258): missing files and
zero-byte files are skipped (warning logged, non-fatal); every other
descriptor is uploaded and contributes one reference, in order. -/
def uploadAllureAttachments (env : Env) : List Attachment → List AttachRef
  | [] => []
  | attach :: rest =>
    match env.fileSize (joinPath env.inputDir attach.source) with
    | none => uploadAllureAttachments env rest
    | some len =>
      if len = 0 then uploadAllureAttachments env rest
      else ⟨env.uploadId attach.source⟩ :: uploadAllureAttachments env rest

/-- The sources for which `uploadAllureAttachments` issues an upload call,
in call order. -/
def uploadTrace (env : Env) : List Attachment → List String
  | [] => []
  | attach :: rest =>
    match env.fileSize (joinPath env.inputDir attach.source) with
    | none => uploadTrace env rest
    | some len =>
      if len = 0 then uploadTrace env rest
      else attach.source :: uploadTrace env rest

/-- A descriptor survives when its resolved file exists and is non-empty. -/
def attachSurvives (env : Env) (attach : Attachment) : Bool :=
  match env.fileSize (joinPath env.inputDir attach.source) with
  | none => false
  | some len => len ≠ 0

/-- A JavaScript object with string values, as an ordered association list:
setting an existing key updates it in place, a new key is appended. -/
def jsSetKey (obj : List (String × String)) (k v : String) : List (String × String) :=
  if obj.any (fun q => q.1 = k) then
    obj.map (fun q => if q.1 = k then (k, v) else q)
  else obj ++ [(k, v)]

/-- Model of `Object.fromEntries` on string pairs: later duplicate keys
overwrite earlier values. -/
def jsFromEntries (l : List (String × String)) : List (String × String) :=
  l.foldl (fun acc p => jsSetKey acc p.1 p.2) []

/-- Property lookup on a JavaScript object modelled as an association list. -/
def jsGet (obj : List (String × String)) (k : String) : Option String :=
  (obj.find? (fun q => q.1 = k)).map (fun q => q.2)

/-- An Allure step node (interface `AllureStep`, lines 6–14); `name` is
`Option String` so that an absent (`undefined`) name is representable, and
the optional `steps`/`parameters`/`attachments` lists are normalized to `[]`
as the code does with `?? []`. -/
inductive AllureStep where
  | mk (name : Option String) (steps : List AllureStep)
       (attachments : List Attachment) (parameters : List NameValue)
       (status : Option String) (start stop : Option Int)

def AllureStep.name : AllureStep → Option String
  | .mk n _ _ _ _ _ _ => n

def AllureStep.steps : AllureStep → List AllureStep
  | .mk _ s _ _ _ _ _ => s

def AllureStep.attachments : AllureStep → List Attachment
  | .mk _ _ a _ _ _ _ => a

def AllureStep.parameters : AllureStep → List NameValue
  | .mk _ _ _ p _ _ _ => p

def AllureStep.status : AllureStep → Option String
  | .mk _ _ _ _ st _ _ => st

def AllureStep.start : AllureStep → Option Int
  | .mk _ _ _ _ _ s _ => s

def AllureStep.stop : AllureStep → Option Int
  | .mk _ _ _ _ _ _ s => s

/-- A TestIT step spec (interface `StepSpec`, lines 16–19): title plus
nested step specs. -/
inductive StepSpec where
  | mk (title : String) (steps : List StepSpec)

def StepSpec.title : StepSpec → String
  | .mk t _ => t

def StepSpec.steps : StepSpec → List StepSpec
  | .mk _ s => s

/-- A TestIT step result (interface `StepResult`, lines 21–28). -/
inductive StepResult where
  | mk (title : String) (stepResults : List StepResult) (outcome : String)
       (duration : Int) (parameters : List (String × String))
       (attachments : List AttachRef)

def StepResult.title : StepResult → String
  | .mk t _ _ _ _ _ => t

def StepResult.stepResults : StepResult → List StepResult
  | .mk _ r _ _ _ _ => r

def StepResult.outcome : StepResult → String
  | .mk _ _ o _ _ _ => o

def StepResult.duration : StepResult → Int
  | .mk _ _ _ d _ _ => d

/-- Embedding of `processAllureSteps` (lines 204–234): walks the step list in
order; a step with falsy name is skipped entirely (`continue`), a named step
contributes one step spec and one step result, each carrying the recursive
translation of its nested steps. -/
def processAllureSteps (env : Env) : List AllureStep → List StepSpec × List StepResult
  | [] => ([], [])
  | AllureStep.mk name steps atts params status start stop :: rest =>
    if jsTruthyStr name then
      (StepSpec.mk (name.getD "") (processAllureSteps env steps).1 ::
         (processAllureSteps env rest).1,
       StepResult.mk (name.getD "") (processAllureSteps env steps).2
         (allureStatusToOutcome status)
         (computeDuration start stop)
         (jsFromEntries (params.map (fun p => (p.name, p.value))))
         (uploadAllureAttachments env atts) ::
         (processAllureSteps env rest).2)
    else
      processAllureSteps env rest

/-- The upload calls `processAllureSteps` issues, in order: for each named
step, first the uploads of its nested subtree, then its own attachments;
skipped steps issue none. -/
def stepUploadTrace (env : Env) : List AllureStep → List String
  | [] => []
  | AllureStep.mk name steps atts _ _ _ _ :: rest =>
    if jsTruthyStr name then
      stepUploadTrace env steps ++ uploadTrace env atts ++ stepUploadTrace env rest
    else
      stepUploadTrace env rest

/-- A sample environment for concrete evaluations. -/
def envSample : Env :=
  { inputDir := "allure-results", fileSize := fun _ => none, uploadId := fun s => s }

/-- A step with empty name holding a non-trivial subtree and attachments. -/
def skipStepSample : AllureStep :=
  .mk (some "")
    [.mk (some "inner") [] [⟨"a.png", "image/png"⟩] [] (some "passed") none none]
    [⟨"b.png", "image/png"⟩] [] none none none

/-- Failure details of an Allure result (interface `StatusDetails`). -/
structure StatusDetails where
  message : String
  trace : String

/-- A parsed Allure result file (interface `AllureResult`, lines 30–40);
optional list fields are normalized to `[]` as the code does with `?? []`. -/
structure AllureResult where
  historyId : String
  name : String
  steps : List AllureStep
  labels : List NameValue
  start : Option Int
  stop : Option Int
  status : Option String
  attachments : List Attachment
  statusDetails : StatusDetails

/-- Sort key of `loadAllureResults`: `it.start ?? 0` (line 332). -/
def startKey (f : AllureResult) : Int := f.start.getD 0

/-- The ascending-`start` ordering induced by the comparator
`(it1.start ?? 0) - (it2.start ?? 0)` of line 332. -/
def startLE (a b : AllureResult) : Prop := startKey a ≤ startKey b

instance : DecidableRel startLE := fun _ _ => Int.decLe _ _

instance : IsTotal AllureResult startLE := ⟨fun _ _ => Int.le_total _ _⟩

instance : IsTrans AllureResult startLE := ⟨fun _ _ _ => Int.le_trans⟩

/-- The sorting step of `loadAllureResults` (line 332): JavaScript
`Array.prototype.sort` with a consistent comparator is a stable sort, which
is uniquely determined by the comparator and modelled here by stable
insertion sort on the same key. -/
def sortAllureFiles (files : List AllureResult) : List AllureResult :=
  List.insertionSort startLE files

/-- Model of `Object.fromEntries` building an object indexed by arbitrary
string keys: each entry sets its key, so a later duplicate key overwrites an
earlier one. -/
def jsObjectFromEntries {α : Type} (entries : List (String × α)) : String → Option α :=
  entries.foldl (fun obj p => fun q => if q = p.1 then some p.2 else obj q) (fun _ => none)

/-- The `historyId`-indexed mapping `loadAllureResults` returns (line 333):
`Object.fromEntries(resultFiles.map(it => [it.historyId, it]))` over the
sorted file list. -/
def resultsMap (files : List AllureResult) : String → Option AllureResult :=
  jsObjectFromEntries ((sortAllureFiles files).map (fun f => (f.historyId, f)))

/-- Embedding of `loadAllureResults` (lines 308–336), parameterized by the
parsed result files in file-system enumeration order (directory reading and
JSON parsing abstracted; `resultFiles` is the list surviving the parse, and
the `Directory not found` check is outside this model). An empty list throws
`No Allure result files found`. -/
def loadAllureResults (resultFiles : List AllureResult) :
    Except String (String → Option AllureResult) :=
  if resultFiles.isEmpty then Except.error "No Allure result files found"
  else Except.ok (resultsMap resultFiles)

/-- Sample parsed result file with `start = 2000`. -/
def fileA : AllureResult :=
  { historyId := "h1", name := "Test A", steps := [], labels := [],
    start := some 2000, stop := some 3000, status := some "passed",
    attachments := [], statusDetails := ⟨"", ""⟩ }

/-- Sample parsed result file with the same `historyId` and `start = 1000`. -/
def fileB : AllureResult :=
  { historyId := "h1", name := "Test A", steps := [], labels := [],
    start := some 1000, stop := some 1500, status := some "failed",
    attachments := [], statusDetails := ⟨"", ""⟩ }

/-- A JavaScript value as sent in a JSON request body; `undef` models the
JavaScript `undefined` some object fields may hold. -/
inductive JVal where
  | null
  | undef
  | str (s : String)
  | num (n : Int)
  | bool (b : Bool)
  | arr (xs : List JVal)
  | obj (fields : List (String × JVal))

/-- A `string | undefined` value (e.g. a missing label) as a `JVal`. -/
def optStrToJVal : Option String → JVal
  | none => .undef
  | some s => .str s

/-- A `string | null` value (e.g. a converted timestamp) as a `JVal`. -/
def optStrNullToJVal : Option String → JVal
  | none => .null
  | some s => .str s

mutual

/-- A step spec as the JSON object sent to the API. -/
def stepSpecToJVal : StepSpec → JVal
  | .mk title steps =>
    .obj [("title", .str title), ("steps", .arr (stepSpecsToJVal steps))]

def stepSpecsToJVal : List StepSpec → List JVal
  | [] => []
  | s :: rest => stepSpecToJVal s :: stepSpecsToJVal rest

end

/-- An attachment reference as the JSON object `{id}`. -/
def attachRefToJVal (r : AttachRef) : JVal :=
  .obj [("id", .str r.id)]

mutual

/-- A step result as the JSON object sent to the API. -/
def stepResultToJVal : StepResult → JVal
  | .mk title results outcome duration params atts =>
    .obj [("title", .str title),
      ("stepResults", .arr (stepResultsToJVal results)),
      ("outcome", .str outcome),
      ("duration", .num duration),
      ("parameters", .obj (params.map (fun p => (p.1, JVal.str p.2)))),
      ("attachments", .arr (atts.map attachRefToJVal))]

def stepResultsToJVal : List StepResult → List JVal
  | [] => []
  | r :: rest => stepResultToJVal r :: stepResultsToJVal rest

end

/-- The parsed command-line arguments (interface `Args`, lines 51–58). -/
structure Args where
  inputDir : String
  url : String
  token : String
  projectId : String
  configurationId : String
  testRunName : String

/-- The label object of line 140:
`Object.fromEntries((testResult.labels ?? []).map(it => [it.name, it.value]))`. -/
def labelObj (tr : AllureResult) : List (String × String) :=
  jsFromEntries (tr.labels.map (fun it => (it.name, it.value)))

/-- The shared `autotestData` object literal (lines 142–149). -/
def autotestData (args : Args) (tr : AllureResult) (stepSpecs : List StepSpec) :
    List (String × JVal) :=
  [("externalId", .str tr.historyId),
   ("projectId", .str args.projectId),
   ("name", .str tr.name),
   ("steps", .arr (stepSpecsToJVal stepSpecs)),
   ("classname", optStrToJVal (jsGet (labelObj tr) "testClass")),
   ("namespace", optStrToJVal (jsGet (labelObj tr) "package"))]

/-- The update request body of lines 153–158: `{id, ...autotestData}`. -/
def autotestUpdateBody (args : Args) (tr : AllureResult) (stepSpecs : List StepSpec)
    (foundId : String) : List (String × JVal) :=
  ("id", .str foundId) :: autotestData args tr stepSpecs

/-- The create request body of lines 161–171:
`{configurationId, ...autotestData, duration, startedOn, completedOn,
outcome, stepResults}`. -/
def autotestCreateBody (args : Args) (tr : AllureResult) (stepSpecs : List StepSpec)
    (stepResults : List StepResult) : List (String × JVal) :=
  ("configurationId", .str args.configurationId) ::
    autotestData args tr stepSpecs ++
    [("duration", .num (computeDuration tr.start tr.stop)),
     ("startedOn", optStrNullToJVal (convertAllureTimestamp tr.start)),
     ("completedOn", optStrNullToJVal (convertAllureTimestamp tr.stop)),
     ("outcome", .str (allureStatusToOutcome tr.status)),
     ("stepResults", .arr (stepResultsToJVal stepResults))]

/-- An autotest record returned by the search endpoint (only its `id` is
read, line 155). -/
structure FoundAutotest where
  id : String

/-- The create-or-update branch of `runImport` (lines 151–172), as the
(method, relative URL, body) triple of the request it issues:
`if (autotestMatches.length)` issues a PUT keyed by the first match's id,
otherwise a POST with the additional execution fields. -/
def autotestUpsertCall (args : Args) (tr : AllureResult) (stepSpecs : List StepSpec)
    (stepResults : List StepResult) (autotestMatches : List FoundAutotest) :
    String × String × JVal :=
  match autotestMatches with
  | found :: _ =>
    ("PUT", "api/v2/autoTests", .obj (autotestUpdateBody args tr stepSpecs found.id))
  | [] =>
    ("POST", "api/v2/autoTests", .obj (autotestCreateBody args tr stepSpecs stepResults))

/-- Sample command-line arguments. -/
def argsSample : Args :=
  ⟨"allure-results", "https://testit.example/", "tok", "proj-1", "conf-1", "Run 1"⟩

/-- An HTTP response: status code, error body text, and parsed JSON body. -/
structure ApiResponse where
  status : Nat
  bodyText : String
  jsonBody : JVal

/-- `fetch`'s `resp.ok`: status in the range 200–299. -/
def respOk (resp : ApiResponse) : Bool :=
  200 ≤ resp.status && resp.status < 300

/-- Embedding of `apiEnsureStatus` (lines 299–306): a non-ok response throws
`API returned <status>`. -/
def apiEnsureStatus (resp : ApiResponse) : Except String Unit :=
  if respOk resp then Except.ok () else
    Except.error ("API returned " ++ toString resp.status)

/-- Embedding of `invokeApi` (lines 275–293), as a function of the response
the remote service produces for the issued request: ensure the status is ok,
return `null` for 204 and the parsed JSON body otherwise. -/
def invokeApi (resp : ApiResponse) : Except String (Option JVal) :=
  match apiEnsureStatus resp with
  | Except.error e => Except.error e
  | Except.ok _ =>
    if resp.status = 204 then Except.ok none else Except.ok (some resp.jsonBody)

/-- Sequential processing with exception propagation: the shape of the
`for` loops in `runImport`, which `await` each call and stop at the first
thrown error. -/
def runRecords {α β ε : Type} (f : α → Except ε β) : List α → Except ε (List β)
  | [] => Except.ok []
  | x :: xs =>
    match f x with
    | Except.error e => Except.error e
    | Except.ok b =>
      match runRecords f xs with
      | Except.error e => Except.error e
      | Except.ok bs => Except.ok (b :: bs)

/-- Processing of the API calls of a single test record, in order, given
the responses the service returns for them. -/
def processRecordCalls (resps : List ApiResponse) : Except String (List (Option JVal)) :=
  runRecords invokeApi resps

/-- The record loop of `runImport` (lines 126–189): each record's calls are
processed sequentially, and a thrown error aborts the whole invocation. -/
def processInvocation (recs : List (List ApiResponse)) :
    Except String (List (List (Option JVal))) :=
  runRecords processRecordCalls recs

theorem normalizeUrl_endsWith (u : String) :
    jsEndsWithSlash (normalizeUrl u) = true := by
  unfold normalizeUrl
  by_cases h : jsEndsWithSlash u
  · simp [h]
  · simp only [h, if_false, Bool.if_false_left]
    unfold jsEndsWithSlash
    simp [String.data_append]

/-- C2: `allureStatusToOutcome` is total into the four-element outcome
vocabulary and follows the fixed table: `undefined ↦ Blocked`,
`"passed" ↦ Passed`, `"skipped" ↦ Skipped`, every other string ↦ `Failed`. -/
theorem allureStatusToOutcome_table (st : Option String) :
    allureStatusToOutcome st ∈ ["Blocked", "Passed", "Skipped", "Failed"] ∧
    allureStatusToOutcome none = "Blocked" ∧
    allureStatusToOutcome (some "passed") = "Passed" ∧
    allureStatusToOutcome (some "skipped") = "Skipped" ∧
    (∀ s : String, s ≠ "passed" → s ≠ "skipped" →
      allureStatusToOutcome (some s) = "Failed") := by
  refine ⟨?_, rfl, by decide, by decide, ?_⟩
  · cases st with
    | none => simp [allureStatusToOutcome]
    | some s =>
      by_cases h1 : s = "passed"
      · simp [allureStatusToOutcome, h1]
      · by_cases h2 : s = "skipped" <;> simp [allureStatusToOutcome, h1, h2]
  · intro s h1 h2
    simp [allureStatusToOutcome, h1, h2]

theorem allureStatusToOutcome_table_witness :
    allureStatusToOutcome (some "broken") = "Failed" :=
  (allureStatusToOutcome_table (some "broken")).2.2.2.2 "broken"
    (by decide) (by decide)

/-- C9: the empty string is defined but falsy; it is not `undefined`, so it
falls through the chain to the catch-all branch: `"" ↦ Failed`, not
`Blocked`. -/
theorem allureStatusToOutcome_empty_string :
    allureStatusToOutcome (some "") = "Failed" ∧
    allureStatusToOutcome (some "") ≠ "Blocked" := by
  constructor
  · rfl
  · decide

/-- C7: the duration expression yields `stop - start` when both endpoints are
present and non-zero (negative results passed through unclamped), and `0`
whenever either endpoint is absent or zero. -/
theorem computeDuration_spec :
    (∀ a b : Int, a ≠ 0 → b ≠ 0 →
      computeDuration (some a) (some b) = b - a) ∧
    (∀ s t : Option Int, jsTruthyNum s = false ∨ jsTruthyNum t = false →
      computeDuration s t = 0) ∧
    (∀ a b : Int, a ≠ 0 → b ≠ 0 → b < a →
      computeDuration (some a) (some b) < 0) := by
  refine ⟨?_, ?_, ?_⟩
  · intro a b ha hb
    simp [computeDuration, jsTruthyNum, ha, hb]
  · intro s t h
    rcases h with h | h <;> simp [computeDuration, h]
  · intro a b ha hb hlt
    simp [computeDuration, jsTruthyNum, ha, hb]
    omega

theorem computeDuration_spec_witness :
    computeDuration (some 5) (some 3) = 3 - 5 :=
  computeDuration_spec.1 5 3 (by decide) (by decide)

/-- C8: `convertAllureTimestamp` sends a present non-zero epoch-millisecond
value to its ISO-8601 string and every falsy input (`0`, `undefined`) to
`null` — in particular never to the epoch-zero timestamp string. -/
theorem convertAllureTimestamp_spec :
    (∀ n : Int, n ≠ 0 →
      convertAllureTimestamp (some n) = some (dateToISOString n)) ∧
    convertAllureTimestamp (some 0) = none ∧
    convertAllureTimestamp none = none ∧
    dateToISOString 0 = "1970-01-01T00:00:00.000Z" ∧
    (∀ v : Option Int, jsTruthyNum v = false →
      convertAllureTimestamp v ≠ some "1970-01-01T00:00:00.000Z") := by
  refine ⟨?_, rfl, rfl, by decide, ?_⟩
  · intro n hn
    simp [convertAllureTimestamp, jsTruthyNum, hn]
  · intro v hv
    simp [convertAllureTimestamp, hv]

theorem convertAllureTimestamp_spec_witness :
    convertAllureTimestamp (some 86400000) = some (dateToISOString 86400000) :=
  convertAllureTimestamp_spec.1 86400000 (by decide)

theorem normalizeUrl_of_endsWith {v : String} (h : jsEndsWithSlash v = true) :
    normalizeUrl v = v := by
  unfold normalizeUrl
  rw [if_pos h]

/-- C10: the URL normalization of `parseArgs` always returns a string ending
in `'/'` and is idempotent: normalizing an already-normalized URL returns it
unchanged. -/
theorem normalizeUrl_idempotent (u : String) :
    jsEndsWithSlash (normalizeUrl u) = true ∧
    normalizeUrl (normalizeUrl u) = normalizeUrl u :=
  ⟨normalizeUrl_endsWith u, normalizeUrl_of_endsWith (normalizeUrl_endsWith u)⟩

/-- C4: `uploadAllureAttachments` keeps exactly the descriptors whose resolved
file exists and is non-empty, one reference each, in input order; skipped
descriptors contribute nothing and do not abort processing. -/
theorem uploadAllureAttachments_spec (env : Env) (atts : List Attachment) :
    uploadAllureAttachments env atts =
      (atts.filter (attachSurvives env)).map
        (fun a => AttachRef.mk (env.uploadId a.source)) ∧
    (uploadAllureAttachments env atts).length ≤ atts.length := by
  have key : ∀ l : List Attachment,
      uploadAllureAttachments env l =
        (l.filter (attachSurvives env)).map
          (fun a => AttachRef.mk (env.uploadId a.source)) := by
    intro l
    induction l with
    | nil => rfl
    | cons a rest ih =>
      unfold uploadAllureAttachments
      cases h : env.fileSize (joinPath env.inputDir a.source) with
      | none => simp [List.filter_cons, attachSurvives, h, ih]
      | some n =>
        by_cases hn : n = 0
        · simp [List.filter_cons, attachSurvives, h, hn, ih]
        · simp [List.filter_cons, attachSurvives, h, hn, ih]
  refine ⟨key atts, ?_⟩
  rw [key atts]
  calc ((atts.filter (attachSurvives env)).map
          (fun a => AttachRef.mk (env.uploadId a.source))).length
      = (atts.filter (attachSurvives env)).length := List.length_map _ _
    _ ≤ atts.length := List.length_filter_le _ _

theorem processAllureSteps_titles (env : Env) (steps : List AllureStep) :
    (processAllureSteps env steps).1.map StepSpec.title =
      (steps.filter (fun s => jsTruthyStr s.name)).map (fun s => s.name.getD "") ∧
    (processAllureSteps env steps).2.map StepResult.title =
      (steps.filter (fun s => jsTruthyStr s.name)).map (fun s => s.name.getD "") := by
  induction steps with
  | nil => constructor <;> simp [processAllureSteps]
  | cons s rest ih =>
    cases s with
    | mk name st atts params status start stop =>
      by_cases h : jsTruthyStr name = true
      · constructor <;>
          simp [processAllureSteps, h, List.filter_cons, AllureStep.name,
            StepSpec.title, StepResult.title, ih.1, ih.2]
      · rw [Bool.not_eq_true] at h
        constructor <;>
          simp [processAllureSteps, h, List.filter_cons, AllureStep.name,
            ih.1, ih.2]

theorem processAllureSteps_skip (env : Env) (s : AllureStep)
    (h : jsTruthyStr s.name = false) :
    ∀ pre post,
      processAllureSteps env (pre ++ s :: post) =
        processAllureSteps env (pre ++ post) := by
  intro pre
  induction pre with
  | nil =>
    intro post
    cases s with
    | mk name st atts params status start stop =>
      simp only [AllureStep.name] at h
      simp [processAllureSteps, h]
  | cons a pre ih =>
    intro post
    cases a with
    | mk name st atts params status start stop =>
      by_cases hn : jsTruthyStr name = true
      · simp [processAllureSteps, hn, ih post]
      · rw [Bool.not_eq_true] at hn
        simp [processAllureSteps, hn, ih post]

theorem stepUploadTrace_skip (env : Env) (s : AllureStep)
    (h : jsTruthyStr s.name = false) :
    ∀ pre post,
      stepUploadTrace env (pre ++ s :: post) =
        stepUploadTrace env (pre ++ post) := by
  intro pre
  induction pre with
  | nil =>
    intro post
    cases s with
    | mk name st atts params status start stop =>
      simp only [AllureStep.name] at h
      simp [stepUploadTrace, h]
  | cons a pre ih =>
    intro post
    cases a with
    | mk name st atts params status start stop =>
      by_cases hn : jsTruthyStr name = true
      · simp [stepUploadTrace, hn, ih post]
      · rw [Bool.not_eq_true] at hn
        simp [stepUploadTrace, hn, ih post]

/-- C1: `processAllureSteps` returns step specs and step results of equal
length with identical title order, one entry per truthy-named step in input
order; a step with empty or absent name contributes to neither output and
its subtree is never visited — in particular none of its attachments (nor
those of its descendants) are uploaded. -/
theorem processAllureSteps_spec (env : Env) (steps : List AllureStep) :
    (processAllureSteps env steps).1.length =
      (processAllureSteps env steps).2.length ∧
    (processAllureSteps env steps).1.map StepSpec.title =
      (processAllureSteps env steps).2.map StepResult.title ∧
    (processAllureSteps env steps).1.map StepSpec.title =
      (steps.filter (fun s => jsTruthyStr s.name)).map (fun s => s.name.getD "") ∧
    ∀ pre s post, jsTruthyStr s.name = false →
      processAllureSteps env (pre ++ s :: post) =
        processAllureSteps env (pre ++ post) ∧
      stepUploadTrace env (pre ++ s :: post) =
        stepUploadTrace env (pre ++ post) := by
  obtain ⟨h1, h2⟩ := processAllureSteps_titles env steps
  refine ⟨?_, h1.trans h2.symm, h1, ?_⟩
  · have hlen := congrArg List.length (h1.trans h2.symm)
    simpa using hlen
  · intro pre s post hname
    exact ⟨processAllureSteps_skip env s hname pre post,
      stepUploadTrace_skip env s hname pre post⟩

theorem processAllureSteps_spec_witness :
    processAllureSteps envSample [skipStepSample] =
      processAllureSteps envSample [] ∧
    stepUploadTrace envSample [skipStepSample] =
      stepUploadTrace envSample [] :=
  (processAllureSteps_spec envSample []).2.2.2 [] skipStepSample [] (by decide)

theorem jsObjectFromEntries_getLast {α : Type} (k : String) :
    ∀ (l : List (String × α)) (acc : String → Option α),
      l.foldl (fun obj p => fun q => if q = p.1 then some p.2 else obj q) acc k =
        ((l.filter (fun p => p.1 = k)).getLast?).elim (acc k) (fun p => some p.2) := by
  intro l
  induction l with
  | nil => intro acc; rfl
  | cons p l ih =>
    intro acc
    rw [List.foldl_cons, ih]
    by_cases hk : p.1 = k
    · subst hk
      cases h : l.filter (fun q => decide (q.1 = p.1)) with
      | nil => simp [List.filter_cons, h]
      | cons q qs =>
        have hqs : (q :: qs).getLast? = some ((q :: qs).getLast (by simp)) :=
          List.getLast?_eq_getLast _ (by simp)
        simp [List.filter_cons, h, hqs]
    · have hk2 : ¬(k = p.1) := fun hkk => hk hkk.symm
      simp [List.filter_cons, hk, hk2]

theorem resultsMap_lookup (files : List AllureResult) (k : String) :
    resultsMap files k =
      ((sortAllureFiles files).filter (fun f => f.historyId = k)).getLast? := by
  unfold resultsMap jsObjectFromEntries
  rw [jsObjectFromEntries_getLast k]
  rw [List.filter_map, List.getLast?_map]
  cases h : (sortAllureFiles files).filter
      ((fun p => p.1 = k) ∘ fun f => (f.historyId, f)) with
  | nil =>
    have h2 : (sortAllureFiles files).filter (fun f => f.historyId = k) = [] := h
    simp [h, h2]
  | cons q qs =>
    have h2 : (sortAllureFiles files).filter (fun f => f.historyId = k) = q :: qs := h
    have hqs : (q :: qs).getLast? = some ((q :: qs).getLast (by simp)) :=
      List.getLast?_eq_getLast _ (by simp)
    simp [h, h2, hqs]

/-- C3: `loadAllureResults` keeps exactly one record per `historyId`: the one
occupying the last array position after the stable ascending sort on
`start ?? 0` (ties resolved by enumeration order). The sorted list is a
permutation of the input, is pairwise ordered by the key, and preserves the
enumeration order of files with equal keys. -/
theorem loadAllureResults_lastWins (files : List AllureResult)
    (hne : files ≠ []) (k : String) :
    loadAllureResults files = Except.ok (resultsMap files) ∧
    resultsMap files k =
      ((sortAllureFiles files).filter (fun f => f.historyId = k)).getLast? ∧
    (sortAllureFiles files).Perm files ∧
    (sortAllureFiles files).Pairwise startLE ∧
    ∀ v : Int, (sortAllureFiles files).filter (fun f => startKey f = v) =
      files.filter (fun f => startKey f = v) := by
  refine ⟨?_, resultsMap_lookup files k, List.perm_insertionSort _ _,
    List.sorted_insertionSort _ _, ?_⟩
  · unfold loadAllureResults
    rw [if_neg]
    simp [hne]
  · intro v
    have hmem : ∀ a ∈ files.filter (fun f => startKey f = v), startKey a = v := by
      intro a ha
      have := List.of_mem_filter ha
      simpa using this
    have hPair : (files.filter (fun f => startKey f = v)).Pairwise startLE := by
      apply List.pairwise_of_forall_mem_list
      intro a ha b hb
      unfold startLE
      rw [hmem a ha, hmem b hb]
    have hsub : List.Sublist (files.filter (fun f => startKey f = v))
        (sortAllureFiles files) :=
      List.sublist_insertionSort hPair (List.filter_sublist files)
    have hsub2 : List.Sublist (files.filter (fun f => startKey f = v))
        ((sortAllureFiles files).filter (fun f => startKey f = v)) := by
      have hand : (fun a : AllureResult =>
          decide (startKey a = v) && decide (startKey a = v)) =
          fun a => decide (startKey a = v) := funext fun a => Bool.and_self _
      have h2 := hsub.filter (fun f => startKey f = v)
      rwa [List.filter_filter, hand] at h2
    have hlen : ((sortAllureFiles files).filter (fun f => startKey f = v)).length =
        (files.filter (fun f => startKey f = v)).length :=
      ((List.perm_insertionSort startLE files).filter _).length_eq
    exact (hsub2.eq_of_length hlen.symm).symm

theorem loadAllureResults_lastWins_witness :
    resultsMap [fileA, fileB] "h1" = some fileA := by
  rw [(loadAllureResults_lastWins [fileA, fileB] (by simp) "h1").2.1]
  rfl

/-- C5: the autotest update request body (taken when the external-id search
returned at least one match) carries exactly the internal id plus the
structural fields, and none of `configurationId`, `duration`, `startedOn`,
`completedOn`, `outcome`, `stepResults`; the create request body (taken when
the search returned no match) additionally carries all of those. -/
theorem autotestBodies_spec (args : Args) (tr : AllureResult)
    (stepSpecs : List StepSpec) (stepResults : List StepResult)
    (foundId : String) (autotestMatches : List FoundAutotest) :
    (autotestUpdateBody args tr stepSpecs foundId).map Prod.fst =
      ["id", "externalId", "projectId", "name", "steps",
       "classname", "namespace"] ∧
    (∀ k, k ∈ ["configurationId", "duration", "startedOn", "completedOn",
        "outcome", "stepResults"] →
      ¬ k ∈ (autotestUpdateBody args tr stepSpecs foundId).map Prod.fst) ∧
    (autotestCreateBody args tr stepSpecs stepResults).map Prod.fst =
      ["configurationId", "externalId", "projectId", "name", "steps",
       "classname", "namespace", "duration", "startedOn", "completedOn",
       "outcome", "stepResults"] ∧
    (∀ k, k ∈ ["configurationId", "duration", "startedOn", "completedOn",
        "outcome", "stepResults"] →
      k ∈ (autotestCreateBody args tr stepSpecs stepResults).map Prod.fst) ∧
    (∀ found rest, autotestMatches = found :: rest →
      autotestUpsertCall args tr stepSpecs stepResults autotestMatches =
        ("PUT", "api/v2/autoTests",
          JVal.obj (autotestUpdateBody args tr stepSpecs found.id))) ∧
    (autotestMatches = [] →
      autotestUpsertCall args tr stepSpecs stepResults autotestMatches =
        ("POST", "api/v2/autoTests",
          JVal.obj (autotestCreateBody args tr stepSpecs stepResults))) := by
  have hupd : (autotestUpdateBody args tr stepSpecs foundId).map Prod.fst =
      ["id", "externalId", "projectId", "name", "steps",
       "classname", "namespace"] := rfl
  have hcre : (autotestCreateBody args tr stepSpecs stepResults).map Prod.fst =
      ["configurationId", "externalId", "projectId", "name", "steps",
       "classname", "namespace", "duration", "startedOn", "completedOn",
       "outcome", "stepResults"] := rfl
  refine ⟨hupd, ?_, hcre, ?_, ?_, ?_⟩
  · intro k hk
    rw [hupd]
    fin_cases hk <;> decide
  · intro k hk
    rw [hcre]
    fin_cases hk <;> decide
  · intro found rest hm
    subst hm
    rfl
  · intro hm
    subst hm
    rfl

theorem autotestBodies_spec_witness :
    autotestUpsertCall argsSample fileA [] [] [] =
      ("POST", "api/v2/autoTests",
        JVal.obj (autotestCreateBody argsSample fileA [] [])) :=
  (autotestBodies_spec argsSample fileA [] [] "id-0" []).2.2.2.2.2 rfl

theorem invokeApi_error_of_not_ok {resp : ApiResponse} (hr : respOk resp = false) :
    invokeApi resp = Except.error ("API returned " ++ toString resp.status) := by
  simp [invokeApi, apiEnsureStatus, hr]

theorem invokeApi_ok_of_ok {resp : ApiResponse} (hr : respOk resp = true) :
    ∃ v, invokeApi resp = Except.ok v := by
  by_cases h204 : resp.status = 204 <;>
    simp [invokeApi, apiEnsureStatus, hr, h204]

/-- C6: a non-2xx response makes `invokeApi` raise `API returned <status>`;
a 204 response is success with a `null` body; and the sequential record loop
aborts at the first failing record — the result is that error and is
unaffected by whatever comes after the failing record. -/
theorem invokeApi_failure_semantics :
    (∀ resp : ApiResponse, ¬(200 ≤ resp.status ∧ resp.status < 300) →
      invokeApi resp = Except.error ("API returned " ++ toString resp.status)) ∧
    (∀ resp : ApiResponse, resp.status = 204 → invokeApi resp = Except.ok none) ∧
    (∀ (pre : List ApiResponse) (r : ApiResponse) (post : List ApiResponse),
      (∀ x ∈ pre, respOk x = true) → respOk r = false →
      processRecordCalls (pre ++ r :: post) =
        Except.error ("API returned " ++ toString r.status)) ∧
    (∀ (pre : List (List ApiResponse)) (bad : List ApiResponse)
        (post post2 : List (List ApiResponse)) (e : String),
      (∀ rec ∈ pre, ∃ v, processRecordCalls rec = Except.ok v) →
      processRecordCalls bad = Except.error e →
      processInvocation (pre ++ bad :: post) = Except.error e ∧
      processInvocation (pre ++ bad :: post) =
        processInvocation (pre ++ bad :: post2)) := by
  refine ⟨?_, ?_, ?_, ?_⟩
  · intro resp h
    have hr : respOk resp = false := by
      simp only [respOk, Bool.and_eq_false_iff, decide_eq_false_iff_not, not_lt,
        not_le]
      omega
    exact invokeApi_error_of_not_ok hr
  · intro resp h204
    have hr : respOk resp = true := by simp [respOk, h204]
    simp [invokeApi, apiEnsureStatus, hr, h204]
  · intro pre r post hpre hr
    induction pre with
    | nil =>
      simp [processRecordCalls, runRecords, invokeApi_error_of_not_ok hr]
    | cons x xs ih =>
      have hx : respOk x = true := hpre x (by simp)
      obtain ⟨v, hv⟩ := invokeApi_ok_of_ok hx
      have ih2 := ih (fun y hy => hpre y (by simp [hy]))
      simp only [processRecordCalls] at ih2 ⊢
      simp [runRecords, hv, ih2]
  · intro pre bad post post2 e hpre hbad
    induction pre with
    | nil =>
      constructor
      · simp [processInvocation, runRecords, hbad]
      · simp [processInvocation, runRecords, hbad]
    | cons x xs ih =>
      obtain ⟨v, hv⟩ := hpre x (by simp)
      have ih2 := ih (fun y hy => hpre y (by simp [hy]))
      constructor
      · simp only [processInvocation] at ih2 ⊢
        simp [runRecords, hv, ih2.1]
      · simp only [processInvocation] at ih2 ⊢
        simp [runRecords, hv, ← ih2.2, ih2.1]

theorem invokeApi_failure_semantics_witness :
    invokeApi ⟨404, "Not Found", JVal.null⟩ =
      Except.error ("API returned " ++ toString 404) :=
  invokeApi_failure_semantics.1 ⟨404, "Not Found", JVal.null⟩ (by decide)
